import Mathlib

/-!
# Verification of the LGTM AI-review decision-and-persistence core

A shallow embedding, in Lean 4, of the decision-and-persistence layer of the
LGTM repository (Rust): the review/suggestion/decision data model
(`src/models.rs`), the rule-condition evaluator (`src/rules.rs`), the
suppression matcher/invalidator (`src/suppressions.rs`), the JSON document
ledger (`src/ledger/json.rs`), the orchestrator (`src/orchestrator.rs`), the
CLI decide path (`src/main.rs`), and the collaborator adapters
(`src/adapters/codex.rs`, `src/adapters/claude.rs`).

Modelling conventions:
* `u32`/`u64` become `Nat`; `DateTime<Utc>` instants become `Int` (Unix
  seconds); `Uuid` becomes `Nat`.
* Effectful code (file system, clock, fresh UUIDs, network collaborators)
  is embedded by passing the environment explicitly: a file system is a
  function `String → String → Option String` (repo root, relative path ↦
  contents), the clock is an `Int` argument, the md5 digest of the external
  `md5` crate is an abstract function argument `String → String`, and the
  external reviewer collaborator is the list of suggestions it would return.
* Rust `f64` values reaching the rule evaluator and the recommendation
  converter originate from JSON numbers (finite decimals); they are modelled
  as `Rat`, and Rust's `str::parse::<f64>` is an abstract argument
  `String → Option Rat`.
* A Rust panic (reachable in `extract_json` through an out-of-bounds slice)
  is modelled as `Option.none`.
-/

namespace LGTM

/-! ## Data model (src/models.rs) -/

/-- Severity level for a code review suggestion (`models.rs` `Severity`). -/
inductive Severity where
  | Critical
  | High
  | Medium
  | Low
deriving DecidableEq

/-- Type of code review suggestion (`models.rs` `SuggestionType`). -/
inductive SuggestionType where
  | Security
  | Performance
  | Style
  | Logic
  | Documentation
deriving DecidableEq

/-- Location in source code (`models.rs` `Location`). -/
structure Location where
  file : String
  line_start : Nat
  line_end : Nat
deriving DecidableEq

/-- A suggestion from the Codex reviewer (`models.rs` `Suggestion`). -/
structure Suggestion where
  id : String
  suggestion_type : SuggestionType
  severity : Severity
  location : Location
  description : String
  proposed_fix : Option String
deriving DecidableEq

/-- Claude's recommended action (`models.rs` `RecommendedAction`). -/
inductive RecommendedAction where
  | Accept
  | Reject
  | Modify
deriving DecidableEq

/-- Claude's recommendation on a suggestion (`models.rs` `Recommendation`);
`confidence : f64` is modelled as `Rat`. -/
structure Recommendation where
  suggestion_id : String
  action : RecommendedAction
  confidence : Rat
  rationale : String
  modified_fix : Option String
deriving DecidableEq

/-- Human decision on a suggestion (`models.rs` `HumanDecision`). -/
inductive HumanDecision where
  | Accepted
  | Rejected
  | Deferred
deriving DecidableEq

/-- Record of a decision (`models.rs` `DecisionRecord`). -/
structure DecisionRecord where
  suggestion_id : String
  decision : HumanDecision
  reason : Option String
  decided_by : String
  decided_at : Int
deriving DecidableEq

/-- Status of a review (`models.rs` `ReviewStatus`). -/
inductive ReviewStatus where
  | Pending
  | Decided
  | Applied
  | Stale
deriving DecidableEq

/-- A suggestion paired with its optional decision: the `SuggestionItem`
shape constructed by `orchestrator.rs` and consumed by `rules.rs` and the
CLI decide path. -/
structure SuggestionItem where
  suggestion : Suggestion
  decision : Option DecisionRecord
deriving DecidableEq

/-- A complete review record (`models.rs` `Review`); `pr_number` is the
`Option<u64>` consumed by the ledger index, the orchestrator and the CLI. -/
structure Review where
  id : Nat
  pr_number : Option Nat
  repo : String
  branch : Option String
  commit_sha : String
  created_at : Int
  status : ReviewStatus
  suggestions : List SuggestionItem
deriving DecidableEq

/-- Context for a review request (`models.rs` `ReviewContext`). -/
structure ReviewContext where
  pr_number : Option Nat
  repo : String
  branch : Option String
  commit_sha : String
  base_sha : Option String
deriving DecidableEq

/-- Rust `Review::new`: the fresh UUID and the `Utc::now()` instant are passed
explicitly. -/
def Review.new (freshId : Nat) (now : Int) (context : ReviewContext) : Review :=
  { id := freshId
    pr_number := context.pr_number
    repo := context.repo
    branch := context.branch
    commit_sha := context.commit_sha
    created_at := now
    status := ReviewStatus.Pending
    suggestions := [] }

/-- Rust `Review::is_fully_decided`: all suggestions carry a decision. -/
def Review.is_fully_decided (r : Review) : Bool :=
  r.suggestions.all (fun s => s.decision.isSome)

/-- Rust `Review::pending_suggestions`: suggestions with no decision yet. -/
def Review.pending_suggestions (r : Review) : List SuggestionItem :=
  r.suggestions.filter (fun s => s.decision.isNone)

/-! ## Rust string primitives used by the core

Small total models of the `std` string operations the core calls. -/

/-- Rust `str::contains(pat)` on character lists: some suffix has `pat` as a
prefix. -/
def listContainsSub (p : List Char) : List Char → Bool
  | [] => p.isEmpty
  | c :: t => p.isPrefixOf (c :: t) || listContainsSub p t

/-- Rust `str::contains(pat : &str)`. -/
def strContains (hay pat : String) : Bool :=
  listContainsSub pat.data hay.data

/-- Rust `str::trim_matches(c)`: repeatedly strip the character from both ends. -/
def trimMatchesChar (c : Char) (s : String) : String :=
  String.mk (((s.data.dropWhile (· = c)).reverse.dropWhile (· = c)).reverse)

/-- Rust `str::trim`: strip whitespace from both ends. -/
def rustTrim (s : String) : String :=
  String.mk (((s.data.dropWhile Char.isWhitespace).reverse.dropWhile Char.isWhitespace).reverse)

/-- Rust `str::take`-like prefix (used for `&sha[..7.min(len)]`). -/
def rustTake (s : String) (n : Nat) : String :=
  String.mk (s.data.take n)

/-- Worker for `rustSplit`, with fuel for structural recursion (the fuel is
the haystack length, which bounds the number of steps). -/
def rustSplitGo (sep : List Char) : Nat → List Char → List Char → List (List Char)
  | _, [], acc => [acc.reverse]
  | 0, l, acc => [acc.reverse ++ l]
  | fuel + 1, c :: t, acc =>
    if sep.isPrefixOf (c :: t) then
      acc.reverse :: rustSplitGo sep fuel (t.drop (sep.length - 1)) []
    else
      rustSplitGo sep fuel t (c :: acc)

/-- Rust `str::split(sep)` for a non-empty separator: non-overlapping,
left-to-right. -/
def rustSplit (sep : String) (s : String) : List String :=
  (rustSplitGo sep.data s.data.length s.data []).map String.mk

/-- Rust `[&str]::join("\n")`. -/
def joinLines : List String → String
  | [] => ""
  | [l] => l
  | l :: rest => l ++ "\n" ++ joinLines rest

/-! ## Rules engine (src/rules.rs, src/config.rs) -/

/-- Automatic action to take (`config.rs` `AutoAction`). -/
inductive AutoAction where
  | AutoAccept
  | AutoDismiss
  | AutoDefer
deriving DecidableEq

/-- Auto-rule for automatic decisions (`config.rs` `AutoRule`). -/
structure AutoRule where
  condition : String
  action : AutoAction
  reason : String
deriving DecidableEq

/-- Rules engine (`rules.rs` `RulesEngine`). -/
structure RulesEngine where
  rules : List AutoRule
deriving DecidableEq

/-- Context extracted from a suggestion for rule evaluation
(`rules.rs` `RuleContext`). -/
structure RuleContext where
  severity : String
  suggestion_type : String
  age_days : Int
  file_path : String
deriving DecidableEq

/-- Rust `rules.rs` `severity_to_string`. -/
def severity_to_string : Severity → String
  | Severity.Critical => "critical"
  | Severity.High => "high"
  | Severity.Medium => "medium"
  | Severity.Low => "low"

/-- Rust `rules.rs` `type_to_string`. -/
def type_to_string : SuggestionType → String
  | SuggestionType.Security => "security"
  | SuggestionType.Performance => "performance"
  | SuggestionType.Style => "style"
  | SuggestionType.Logic => "logic"
  | SuggestionType.Documentation => "documentation"

/-- Rust `RuleContext::from_suggestion`; `age_days` is chrono's `num_days` of
`now - created_at`, i.e. whole days truncated toward zero. -/
def RuleContext.from_suggestion (item : SuggestionItem) (created_at now : Int) :
    RuleContext :=
  { severity := severity_to_string item.suggestion.severity
    suggestion_type := type_to_string item.suggestion.suggestion_type
    age_days := Int.tdiv (now - created_at) 86400
    file_path := item.suggestion.location.file }

/-- Rust `RulesEngine::get_field_value`: unknown fields render as the empty
string. -/
def get_field_value (field : String) (ctx : RuleContext) : String :=
  match field with
  | "severity" => ctx.severity
  | "type" => ctx.suggestion_type
  | "age_days" => toString ctx.age_days
  | "file_path" => ctx.file_path
  | _ => ""

/-- The numeric-comparison block of `RulesEngine::evaluate_expression`.
The source repeats this block verbatim for `>`, `>=` and `<`, with only the
operator split on and the comparison varying; `parse` models
`str::parse::<f64>` and returning `false` models the `Err(_) => return
false` arms. -/
def numericCompare (parse : String → Option Rat) (ctx : RuleContext)
    (parts : List String) (cmp : Rat → Rat → Bool) : Bool :=
  match parts with
  | [f, v] =>
    match parse (rustTrim v) with
    | none => false
    | some threshold =>
      match parse (get_field_value (rustTrim f) ctx) with
      | none => false
      | some field_value => cmp field_value threshold
  | _ => false

/-- Rust `RulesEngine::evaluate_expression`: sequential operator sniffing with
early returns; any path that cannot parse evaluates to `false`. -/
def evaluate_expression (parse : String → Option Rat) (expr : String)
    (ctx : RuleContext) : Bool :=
  let expr := rustTrim expr
  if strContains expr "==" then
    match rustSplit "==" expr with
    | [f, v] =>
      get_field_value (rustTrim f) ctx
        == trimMatchesChar '"' (trimMatchesChar '\'' (rustTrim v))
    | _ => false
  else if strContains expr ">" && !strContains expr ">=" then
    numericCompare parse ctx (rustSplit ">" expr) (fun a b => a > b)
  else if strContains expr ">=" then
    numericCompare parse ctx (rustSplit ">=" expr) (fun a b => a ≥ b)
  else if strContains expr "<" && !strContains expr "<=" then
    numericCompare parse ctx (rustSplit "<" expr) (fun a b => a < b)
  else
    false

/-- Rust `RulesEngine::matches_condition`: split on `" AND "`, all conjuncts must
hold. -/
def matches_condition (parse : String → Option Rat) (condition : String)
    (ctx : RuleContext) : Bool :=
  (rustSplit " AND " condition).all (fun part => evaluate_expression parse (rustTrim part) ctx)

/-- The `for rule in &self.rules` loop of `RulesEngine::evaluate_rules`. -/
def evaluateRulesGo (parse : String → Option Rat) (ctx : RuleContext) :
    List AutoRule → Option (AutoAction × String)
  | [] => none
  | rule :: rest =>
    if matches_condition parse rule.condition ctx then
      some (rule.action, rule.reason)
    else
      evaluateRulesGo parse ctx rest

/-- Rust `RulesEngine::evaluate_rules`: first rule whose condition matches wins
(configuration order). -/
def RulesEngine.evaluate_rules (parse : String → Option Rat) (e : RulesEngine)
    (item : SuggestionItem) (created_at now : Int) : Option (AutoAction × String) :=
  evaluateRulesGo parse (RuleContext.from_suggestion item created_at now) e.rules

/-- The `AutoAction → HumanDecision` match inside `RulesEngine::apply`. -/
def actionToDecision : AutoAction → HumanDecision
  | AutoAction.AutoAccept => HumanDecision.Accepted
  | AutoAction.AutoDismiss => HumanDecision.Rejected
  | AutoAction.AutoDefer => HumanDecision.Deferred

/-- One iteration of the `for item in &mut review.suggestions` loop of
`RulesEngine::apply`: the updated item together with its contribution to the
count of auto-decisions. -/
def RulesEngine.applyItem (parse : String → Option Rat) (e : RulesEngine)
    (created_at now : Int) (item : SuggestionItem) : SuggestionItem × Nat :=
  if item.decision.isSome then
    (item, 0)
  else
    match e.evaluate_rules parse item created_at now with
    | some (action, reason) =>
      ({ item with
          decision := some
            { suggestion_id := item.suggestion.id
              decision := actionToDecision action
              reason := some ("[Auto] " ++ reason)
              decided_by := "auto-rules"
              decided_at := now } }, 1)
    | none => (item, 0)

/-- Rust `RulesEngine::apply`: apply auto-rules to a review, returning the number
of auto-decisions made together with the updated review.  The review's
`status` field is not touched by the source. -/
def RulesEngine.apply (parse : String → Option Rat) (e : RulesEngine)
    (now : Int) (review : Review) : Nat × Review :=
  let results := review.suggestions.map (e.applyItem parse review.created_at now)
  ((results.map Prod.snd).sum, { review with suggestions := results.map Prod.fst })

/-! ## Suppressions (src/suppressions.rs)

The file system is passed as `fs : String → String → Option String`
(`fs root file` models `fs::read_to_string(root.join(file))`, `none` an
unreadable file), the clock as `now : Int`, and the digest of the external
`md5` crate as `md5hex : String → String`. -/

/-- A suppressed finding (`suppressions.rs` `Suppression`). -/
structure Suppression where
  id : String
  file : String
  line_start : Nat
  line_end : Nat
  finding_type : Option String
  pattern : Option String
  reason : String
  suppressed_by : String
  suppressed_at : Int
  content_hash : Option String
  expires : Option Int
deriving DecidableEq

/-- Collection of suppressions (`suppressions.rs` `Suppressions`). -/
structure Suppressions where
  items : List Suppression
deriving DecidableEq

/-- Rust `Suppressions::add`: drop any same-id entry, then push. -/
def Suppressions.add (s : Suppressions) (suppression : Suppression) : Suppressions :=
  { items := s.items.filter (fun x => x.id ≠ suppression.id) ++ [suppression] }

/-- Rust `str::lines()`: split on `'\n'`, strip a trailing `'\r'` from each
line, and do not produce a final empty line for a trailing newline. -/
def rustLines (s : String) : List String :=
  let parts := rustSplit "\n" s
  let parts := if parts.getLastD "" = "" then parts.dropLast else parts
  parts.map (fun l =>
    if l.data.getLast? = some '\r' then String.mk l.data.dropLast else l)

/-- Rust `suppressions.rs` `get_content_hash`: hash of the inclusive 1-indexed
line range, clamped to the file length; `none` when the file is unreadable
or the start line is past the end of the file.  (A reversed range whose
clamped end falls before its start would panic in the source; modelled as
`none`.) -/
def get_content_hash (md5hex : String → String)
    (fs : String → String → Option String) (repo_root : String)
    (file : String) (line_start line_end : Nat) : Option String :=
  match fs repo_root file with
  | none => none
  | some content =>
    let lines := rustLines content
    let start := line_start - 1
    let stop := min line_end lines.length
    if start ≥ lines.length then none
    else if stop < start then none
    else some (md5hex (joinLines ((lines.take stop).drop start)))

/-- The filter body of `Suppressions::active`: not past an explicit expiry,
and any recorded `content_hash` still matches the currently computable hash
of the referenced line range. -/
def suppressionPassesActive (md5hex : String → String)
    (fs : String → String → Option String) (now : Int)
    (repo_root : Option String) (s : Suppression) : Bool :=
  if (match s.expires with
      | some expires => decide (now > expires)
      | none => false) then
    false
  else
    match s.content_hash, repo_root with
    | some expected_hash, some root =>
      match get_content_hash md5hex fs root s.file s.line_start s.line_end with
      | some current_hash => current_hash == expected_hash
      | none => true
    | _, _ => true

/-- Rust `Suppressions::active`: active (non-expired, non-stale) suppressions in
stored order. -/
def Suppressions.active (md5hex : String → String)
    (fs : String → String → Option String) (now : Int)
    (s : Suppressions) (repo_root : Option String) : List Suppression :=
  s.items.filter (suppressionPassesActive md5hex fs now repo_root)

/-- The retain body of `Suppressions::cleanup` (the source repeats the
`active` filter body verbatim). -/
def suppressionSurvivesCleanup (md5hex : String → String)
    (fs : String → String → Option String) (now : Int)
    (repo_root : Option String) (s : Suppression) : Bool :=
  if (match s.expires with
      | some expires => decide (now > expires)
      | none => false) then
    false
  else
    match s.content_hash, repo_root with
    | some expected_hash, some root =>
      match get_content_hash md5hex fs root s.file s.line_start s.line_end with
      | some current_hash => current_hash == expected_hash
      | none => true
    | _, _ => true

/-- Rust `Suppressions::cleanup`: physically remove expired and invalidated
suppressions. -/
def Suppressions.cleanup (md5hex : String → String)
    (fs : String → String → Option String) (now : Int)
    (s : Suppressions) (repo_root : Option String) : Suppressions :=
  { items := s.items.filter (suppressionSurvivesCleanup md5hex fs now repo_root) }

/-- Rust `str::to_lowercase`, modelled per character. -/
def strToLower (s : String) : String :=
  String.mk (s.data.map Char.toLower)

/-- The scan loop of `Suppressions::is_suppressed` over the active list:
first suppression passing the file / line-overlap / finding-type / pattern
checks. -/
def isSuppressedScan (file : String) (line_start line_end : Nat)
    (finding_type description : String) : List Suppression → Option Suppression
  | [] => none
  | suppression :: rest =>
    if suppression.file ≠ file then
      isSuppressedScan file line_start line_end finding_type description rest
    else if ¬(line_start ≤ suppression.line_end ∧ line_end ≥ suppression.line_start) then
      isSuppressedScan file line_start line_end finding_type description rest
    else if (match suppression.finding_type with
             | some stype => stype != finding_type
             | none => false) then
      isSuppressedScan file line_start line_end finding_type description rest
    else if (match suppression.pattern with
             | some pattern =>
               !strContains (strToLower description) (strToLower pattern)
             | none => false) then
      isSuppressedScan file line_start line_end finding_type description rest
    else
      some suppression

/-- Rust `Suppressions::is_suppressed`: first active suppression, in stored
order, matching the incoming finding. -/
def Suppressions.is_suppressed (md5hex : String → String)
    (fs : String → String → Option String) (now : Int)
    (s : Suppressions) (file : String) (line_start line_end : Nat)
    (finding_type description : String) (repo_root : Option String) :
    Option Suppression :=
  isSuppressedScan file line_start line_end finding_type description
    (s.active md5hex fs now repo_root)

/-- Rust `Suppressions::to_prompt`: render the active suppressions as an
instruction block for the reviewer; empty when nothing is active. -/
def Suppressions.to_prompt (md5hex : String → String)
    (fs : String → String → Option String) (now : Int)
    (s : Suppressions) (repo_root : Option String) : String :=
  let active := s.active md5hex fs now repo_root
  if active.isEmpty then ""
  else
    "\n\nPreviously reviewed and suppressed findings (DO NOT report these again):\n"
      ++ String.join (active.map (fun sup =>
        "- " ++ sup.file ++ " (lines " ++ toString sup.line_start ++ "-"
          ++ toString sup.line_end ++ "): "
          ++ (match sup.pattern with
              | some p => p
              | none => "any issue")
          ++ " [Reason: " ++ sup.reason ++ "]\n"))

/-! ## JSON ledger (src/ledger/json.rs)

The on-disk state is a `LedgerState`: the per-review documents
(`{id}.json`, a map modelled as a remove-then-prepend association list) and
the secondary index (`index.json`). -/

/-- Rust `json.rs` `ReviewIndexEntry`. -/
structure ReviewIndexEntry where
  id : Nat
  repo : String
  pr_number : Option Nat
  commit_sha : String
  status : ReviewStatus
deriving DecidableEq

/-- The ledger directory: review documents keyed by id, plus the index. -/
structure LedgerState where
  docs : List (Nat × Review)
  index : List ReviewIndexEntry
deriving DecidableEq

/-- A freshly created ledger directory. -/
def LedgerState.empty : LedgerState :=
  { docs := [], index := [] }

/-- Rust `JsonLedger::save`: overwrite `{id}.json`, then rebuild the index by
removing any existing entry for this id and appending the new one. -/
def LedgerState.save (st : LedgerState) (review : Review) : LedgerState :=
  { docs := (review.id, review) :: st.docs.filter (fun d => d.1 ≠ review.id)
    index := st.index.filter (fun r => r.id ≠ review.id)
      ++ [{ id := review.id
            repo := review.repo
            pr_number := review.pr_number
            commit_sha := review.commit_sha
            status := review.status }] }

/-- Rust `JsonLedger::load`: read `{id}.json` if present. -/
def LedgerState.load (st : LedgerState) (id : Nat) : Option Review :=
  (st.docs.find? (fun d => d.1 = id)).map Prod.snd

/-- Rust `JsonLedger::load_by_pr`: `find` the first index entry with this repo
and PR number, then load its document. -/
def LedgerState.load_by_pr (st : LedgerState) (repo : String) (pr_number : Nat) :
    Option Review :=
  match st.index.find? (fun r => r.repo == repo && r.pr_number == some pr_number) with
  | some e => st.load e.id
  | none => none

/-- Rust `JsonLedger::load_by_commit`: `find` the first index entry with this
repo and commit SHA, then load its document. -/
def LedgerState.load_by_commit (st : LedgerState) (repo commit_sha : String) :
    Option Review :=
  match st.index.find? (fun r => r.repo == repo && r.commit_sha == commit_sha) with
  | some e => st.load e.id
  | none => none

/-- A sequence of `save` operations applied to an initial state. -/
def LedgerState.applySaves (st : LedgerState) (rs : List Review) : LedgerState :=
  rs.foldl LedgerState.save st

/-! ## Codex adapter (src/adapters/codex.rs) -/

/-- A chat message (`codex.rs` `Message`). -/
structure Message where
  role : String
  content : String
deriving DecidableEq

/-- Rust `CodexAdapter::build_system_prompt` (a fixed string). -/
def build_system_prompt : String :=
  "You are an expert code reviewer. Analyze the provided diff and identify issues in these categories:
- security: vulnerabilities, injection risks, authentication issues
- performance: inefficient algorithms, unnecessary allocations, N+1 queries
- logic: bugs, edge cases, incorrect behavior
- style: readability issues, naming, code organization (only significant issues)

For each issue, provide:
- A unique ID (S001, S002, etc.)
- The category (security, performance, logic, style)
- Severity (critical, high, medium, low)
- Exact file and line numbers
- Clear description of the problem
- A proposed fix (actual code when possible)

Focus on substantive issues. Ignore minor style preferences.
Only review the changed lines (+ lines in diff), not removed lines."

/-- Rust `CodexAdapter::build_user_prompt`: the diff rendered with its PR-or-commit
target; `&commit_sha[..7.min(len)]` is the first (at most) seven
characters. -/
def build_user_prompt (diff : String) (context : ReviewContext) : String :=
  let target :=
    match context.pr_number with
    | some pr => "PR #" ++ toString pr
    | none => "commit " ++ rustTake context.commit_sha 7
  "Review this diff from " ++ target ++ " in " ++ context.repo
    ++ ":\n\n```diff\n" ++ diff ++ "\n```"

/-- The `messages` array of the `ChatRequest` that `CodexAdapter::review`
sends: the complete prompt content of one reviewer invocation, built from
the diff and the review context alone. -/
def codexRequestMessages (diff : String) (context : ReviewContext) : List Message :=
  [{ role := "system", content := build_system_prompt },
   { role := "user", content := build_user_prompt diff context }]

/-- Raw suggestion decoded from the Codex JSON payload
(`codex.rs` `CodexSuggestion`, with its `CodexLocation`). -/
structure CodexSuggestion where
  id : String
  suggestion_type : String
  severity : String
  location : Location
  description : String
  proposed_fix : Option String
deriving DecidableEq

/-- Rust `CodexAdapter::convert_suggestion`: unrecognized `type` strings become
`Logic`, unrecognized `severity` strings become `Low`. -/
def convert_suggestion (s : CodexSuggestion) : Suggestion :=
  { id := s.id
    suggestion_type :=
      match s.suggestion_type with
      | "security" => SuggestionType.Security
      | "performance" => SuggestionType.Performance
      | "style" => SuggestionType.Style
      | "logic" => SuggestionType.Logic
      | "documentation" => SuggestionType.Documentation
      | _ => SuggestionType.Logic
    severity :=
      match s.severity with
      | "critical" => Severity.Critical
      | "high" => Severity.High
      | "medium" => Severity.Medium
      | _ => Severity.Low
    location := s.location
    description := s.description
    proposed_fix := s.proposed_fix }

/-- The string handed to `serde_json::from_str` by `CodexAdapter::review`
(codex.rs line 147): the raw choice content, with no extraction step. -/
def codexPayloadForDecoding (content : String) : String :=
  content

/-! ## Claude adapter (src/adapters/claude.rs) -/

/-- Raw recommendation decoded from the Claude JSON payload
(`claude.rs` `ClaudeRecommendation`). -/
structure ClaudeRecommendation where
  suggestion_id : String
  action : String
  confidence : Rat
  rationale : String
  modified_fix : Option String
deriving DecidableEq

/-- Rust `ClaudeAdapter::convert_recommendation`: unrecognized `action` strings
become `Reject`; `confidence` is clamped into `[0, 1]`. -/
def convert_recommendation (r : ClaudeRecommendation) : Recommendation :=
  { suggestion_id := r.suggestion_id
    action :=
      match r.action with
      | "accept" => RecommendedAction.Accept
      | "reject" => RecommendedAction.Reject
      | "modify" => RecommendedAction.Modify
      | _ => RecommendedAction.Reject
    confidence :=
      if r.confidence < 0 then 0
      else if r.confidence > 1 then 1
      else r.confidence
    rationale := r.rationale
    modified_fix := r.modified_fix }

/-- Index of the first occurrence of `p` in a character list
(Rust `str::find(&str)`). -/
def findSubIdx (p : List Char) : List Char → Option Nat
  | [] => if p.isEmpty then some 0 else none
  | c :: t =>
    if p.isPrefixOf (c :: t) then some 0
    else (findSubIdx p t).map (· + 1)

/-- Index of the last occurrence of a character (Rust `str::rfind(char)`). -/
def rfindCharIdx (c : Char) (l : List Char) : Option Nat :=
  (findSubIdx [c] l.reverse).map (fun i => l.length - 1 - i)

/-- The raw-JSON-object fallback inside `claude.rs` `extract_json`: the span
from the first `'{'` through the last `'}'` inclusive when both occur, else
the content unchanged.  The Rust slice `content[start..=end]` panics when
`start > end + 1`; the panic is modelled as `none`. -/
def braceSpan (content : String) : Option String :=
  match findSubIdx ['{'] content.data, rfindCharIdx '}' content.data with
  | some start, some stop =>
    if start ≤ stop + 1 then
      some (String.mk ((content.data.take (stop + 1)).drop start))
    else none
  | _, _ => some content

/-- Rust `claude.rs` `extract_json`: the trimmed contents of the first ```json
fenced block when it has a closing fence, else the brace-span fallback
(`json_start = start + 7` skips the opening fence). -/
def extract_json (content : String) : Option String :=
  match findSubIdx "```json".data content.data with
  | some start =>
    match findSubIdx "```".data (content.data.drop (start + 7)) with
    | some stop =>
      some (rustTrim (String.mk ((content.data.drop (start + 7)).take stop)))
    | none => braceSpan content
  | none => braceSpan content

/-- The string handed to `serde_json::from_str` by `ClaudeAdapter::recommend`
(claude.rs lines 124-127): the raw text content after `extract_json`. -/
def claudePayloadForDecoding (content : String) : Option String :=
  extract_json content

/-! ## Orchestrator (src/orchestrator.rs) and the CLI decide path
(src/main.rs)

`Orchestrator::review` is embedded as a state transformer.  The external
reviewer collaborator (`self.codex.review(diff, &context)`) is modelled by
the suggestion list it would return; the returned `Bool` records whether
that collaborator was invoked.  The invocation's complete prompt input is
`codexRequestMessages diff context` (see the Codex adapter above). -/

/-- The dedup lookup of `Orchestrator::review`: by PR number when present,
else by commit SHA. -/
def lookupExisting (st : LedgerState) (context : ReviewContext) : Option Review :=
  match context.pr_number with
  | some pr => st.load_by_pr context.repo pr
  | none => st.load_by_commit context.repo context.commit_sha

/-- The review built by the non-dedup path of `Orchestrator::review`: a new
review, immediately `Decided` when the reviewer returned no suggestions,
else `Pending` with all returned suggestions attached undecided. -/
def pipelineReview (freshId : Nat) (now : Int) (codexResult : List Suggestion)
    (context : ReviewContext) : Review :=
  let review := Review.new freshId now context
  if codexResult.isEmpty then
    { review with status := ReviewStatus.Decided }
  else
    { review with
        suggestions := codexResult.map (fun s => { suggestion := s, decision := none }) }

/-- Rust `Orchestrator::review`: dedup lookup, then (when needed) run the
reviewer, attach suggestions, and persist.  The third component records
whether the external reviewer collaborator was invoked. -/
def Orchestrator.review (freshId : Nat) (now : Int)
    (codexResult : List Suggestion) (st : LedgerState)
    (context : ReviewContext) : Review × LedgerState × Bool :=
  match lookupExisting st context with
  | some existingReview =>
    if existingReview.commit_sha = context.commit_sha then
      (existingReview, st, false)
    else
      (pipelineReview freshId now codexResult context,
       st.save (pipelineReview freshId now codexResult context), true)
  | none =>
    (pipelineReview freshId now codexResult context,
     st.save (pipelineReview freshId now codexResult context), true)

/-- Record a decision on the first suggestion whose id matches
(`review.suggestions.iter_mut().find(...)` in `main.rs`); `none` when no
suggestion matches. -/
def setDecisionOnFirst (suggestion_id : String) (d : DecisionRecord) :
    List SuggestionItem → Option (List SuggestionItem)
  | [] => none
  | item :: rest =>
    if item.suggestion.id = suggestion_id then
      some ({ item with decision := some d } :: rest)
    else
      (setDecisionOnFirst suggestion_id d rest).map (item :: ·)

/-- Rust `main.rs` `make_decision`: the CLI decide-and-save path.  Loads the
review by PR, records the decision on the named suggestion, promotes the
status to `Decided` when the review becomes fully decided, and saves. -/
def make_decision (st : LedgerState) (repo : String) (pr : Nat)
    (suggestion_id : String) (accept reject : Bool) (reason : Option String)
    (user : String) (now : Int) : Except String (Review × LedgerState) :=
  match st.load_by_pr repo pr with
  | none => Except.error "No review found"
  | some review =>
    match (if accept then some HumanDecision.Accepted
           else if reject then some HumanDecision.Rejected
           else none) with
    | none => Except.error "Must specify --accept or --reject"
    | some decision =>
      match setDecisionOnFirst suggestion_id
          { suggestion_id := suggestion_id
            decision := decision
            reason := reason
            decided_by := user
            decided_at := now } review.suggestions with
      | none => Except.error "Suggestion not found"
      | some suggestions =>
        let review := { review with suggestions := suggestions }
        let review :=
          if review.is_fully_decided then
            { review with status := ReviewStatus.Decided }
          else review
        Except.ok (review, st.save review)

/-! ## Helper lemmas -/

/-- Finding a single-character needle means the character occurs in the
haystack. -/
theorem findSubIdx_mem {c : Char} {l : List Char} {i : Nat}
    (h : findSubIdx [c] l = some i) : c ∈ l := by
  induction l generalizing i with
  | nil => simp [findSubIdx] at h
  | cons d t ih =>
    rw [findSubIdx] at h
    by_cases hp : [c].isPrefixOf (d :: t) = true
    · have hcd : c = d := by
        simpa [List.isPrefixOf] using hp
      simp [hcd]
    · rw [if_neg hp] at h
      rw [Option.map_eq_some'] at h
      obtain ⟨j, hj, _⟩ := h
      exact List.mem_cons_of_mem _ (ih hj)

/-! ## Claims -/

/-- C10: converting collaborator output into model types is total and
silently coerces unrecognized enumeration strings: an unknown suggestion
`type` becomes `Logic`, an unknown `severity` becomes `Low`, an unknown
recommendation `action` becomes `Reject`, and `confidence` is clamped into
`[0, 1]` (left unchanged when already in range). -/
theorem claim_C10 :
    (∀ s : CodexSuggestion,
      s.suggestion_type ∉ ["security", "performance", "style", "logic", "documentation"] →
      (convert_suggestion s).suggestion_type = SuggestionType.Logic) ∧
    (∀ s : CodexSuggestion,
      s.severity ∉ ["critical", "high", "medium"] →
      (convert_suggestion s).severity = Severity.Low) ∧
    (∀ r : ClaudeRecommendation,
      r.action ∉ ["accept", "reject", "modify"] →
      (convert_recommendation r).action = RecommendedAction.Reject) ∧
    (∀ r : ClaudeRecommendation,
      0 ≤ (convert_recommendation r).confidence ∧
      (convert_recommendation r).confidence ≤ 1 ∧
      (0 ≤ r.confidence → r.confidence ≤ 1 →
        (convert_recommendation r).confidence = r.confidence)) := by
  refine ⟨fun s hs => ?_, fun s hs => ?_, fun r hr => ?_, fun r => ?_⟩
  · simp only [convert_suggestion]
    split <;> simp_all
  · simp only [convert_suggestion]
    split <;> simp_all
  · simp only [convert_recommendation]
    split <;> simp_all
  · have hc : (convert_recommendation r).confidence
        = if r.confidence < 0 then 0
          else if r.confidence > 1 then 1 else r.confidence := rfl
    refine ⟨?_, ?_, fun h0 h1 => ?_⟩
    · rw [hc]
      split_ifs with ha hb
      · norm_num
      · norm_num
      · linarith
    · rw [hc]
      split_ifs with ha hb
      · norm_num
      · norm_num
      · linarith
    · rw [hc]
      split_ifs with ha hb
      · linarith
      · linarith
      · rfl

/-- C10 witness: concrete unrecognized strings are coerced as stated. -/
theorem claim_C10_witness :
    (convert_suggestion
      { id := "S1", suggestion_type := "refactor", severity := "blocker",
        location := { file := "f", line_start := 1, line_end := 2 },
        description := "d", proposed_fix := none }).suggestion_type
        = SuggestionType.Logic ∧
    (convert_suggestion
      { id := "S1", suggestion_type := "refactor", severity := "blocker",
        location := { file := "f", line_start := 1, line_end := 2 },
        description := "d", proposed_fix := none }).severity = Severity.Low ∧
    (convert_recommendation
      { suggestion_id := "S1", action := "escalate", confidence := 2,
        rationale := "r", modified_fix := none }).action
        = RecommendedAction.Reject ∧
    (convert_recommendation
      { suggestion_id := "S1", action := "accept", confidence := (1 : Rat) / 2,
        rationale := "r", modified_fix := none }).confidence = (1 : Rat) / 2 :=
  ⟨claim_C10.1 _ (by decide), claim_C10.2.1 _ (by decide),
   claim_C10.2.2.1 _ (by decide),
   claim_C10.2.2.2 _ |>.2.2 (by norm_num) (by norm_num)⟩

/-- A collaborator response wrapping JSON in prose and a fenced block. -/
def fencedResponse : String :=
  "Here:\n```json\n\x7b\"suggestions\": []\x7d\n```\nDone"

/-- The bare JSON payload of `fencedResponse`. -/
def rawJsonResponse : String := "\x7b\"suggestions\": []\x7d"

/-- C9 counterexample: the Codex reviewer payload does **not** undergo
defensive JSON extraction — `CodexAdapter::review` hands the raw choice
content to strict decoding, although `extract_json` would reduce this very
response to its fenced JSON payload.  Only the Claude advisor path
extracts. -/
theorem claim_C9_counterexample :
    extract_json fencedResponse = some rawJsonResponse ∧
    codexPayloadForDecoding fencedResponse = fencedResponse ∧
    fencedResponse ≠ rawJsonResponse := by
  refine ⟨by decide, rfl, by decide⟩

/-- C9 (amended): only the Claude advisor response undergoes defensive JSON
extraction before strict decoding (the Codex reviewer payload is decoded
raw); the extraction takes the trimmed contents of the first closed ```json
fenced block, else the span from the first `'{'` through the last `'}'`,
else passes the content through unchanged; the claim's two example
responses extract as stated. -/
theorem claim_C9 :
    (∀ content, codexPayloadForDecoding content = content) ∧
    (∀ content, claudePayloadForDecoding content = extract_json content) ∧
    extract_json fencedResponse = some rawJsonResponse ∧
    extract_json rawJsonResponse = some rawJsonResponse ∧
    (∀ content : String,
      findSubIdx "```json".data content.data = none →
      ('{' ∉ content.data ∨ '}' ∉ content.data) →
      extract_json content = some content) := by
  refine ⟨fun _ => rfl, fun _ => rfl, by decide, by decide, fun content hf hb => ?_⟩
  unfold extract_json
  rw [hf]
  unfold braceSpan
  rcases hb with hb | hb
  · have h1 : findSubIdx ['{'] content.data = none := by
      match h : findSubIdx ['{'] content.data with
      | none => rfl
      | some i =>
        exact absurd (findSubIdx_mem h) hb
    rw [h1]
  · have h2 : rfindCharIdx '}' content.data = none := by
      unfold rfindCharIdx
      match h : findSubIdx ['}'] content.data.reverse with
      | none => rfl
      | some i =>
        exact absurd (List.mem_reverse.mp (findSubIdx_mem h)) hb
    rw [h2]
    cases findSubIdx ['{'] content.data <;> rfl

/-- C9 witness: a response with no fenced block and no closing brace passes
through extraction unchanged. -/
theorem claim_C9_witness : extract_json "hello" = some "hello" :=
  claim_C9.2.2.2.2 "hello" (by decide) (Or.inl (by decide))

/-- The scan loop of `is_suppressed` is the first element of the list
satisfying the claim-shaped conjunction of the four checks. -/
theorem isSuppressedScan_eq_find (file : String) (ls le : Nat) (ft d : String) :
    ∀ l : List Suppression,
      isSuppressedScan file ls le ft d l
        = l.find? (fun sup =>
            decide (sup.file = file) &&
            decide (ls ≤ sup.line_end ∧ le ≥ sup.line_start) &&
            (match sup.finding_type with
             | some stype => decide (stype = ft)
             | none => true) &&
            (match sup.pattern with
             | some pattern => strContains (strToLower d) (strToLower pattern)
             | none => true))
  | [] => rfl
  | sup :: rest => by
    have ih := isSuppressedScan_eq_find file ls le ft d rest
    rw [isSuppressedScan, List.find?]
    by_cases h1 : sup.file = file
    · by_cases h2 : ls ≤ sup.line_end ∧ le ≥ sup.line_start
      · cases hft : sup.finding_type with
        | some stype =>
          by_cases h3 : stype = ft
          · cases hp : sup.pattern with
            | some pattern =>
              cases h4 : strContains (strToLower d) (strToLower pattern) <;>
                simp [h1, h2, h3, h4, hft, hp, ih]
            | none => simp [h1, h2, h3, hft, hp, ih]
          · simp [h1, h2, h3, hft, ih]
        | none =>
          cases hp : sup.pattern with
          | some pattern =>
            cases h4 : strContains (strToLower d) (strToLower pattern) <;>
              simp [h1, h2, h4, hft, hp, ih]
          | none => simp [h1, h2, hft, hp, ih]
      · simp [h1, h2, ih]
    · simp [h1, ih]

/-- The model digest used for concrete suppression fixtures (the real
program uses the md5 hex digest; any function injective on the fixture
slices exhibits the same behaviour). -/
def hashId : String → String := fun s => s

/-- An empty model file system. -/
def fsEmpty : String → String → Option String := fun _ _ => none

/-- A suppression over lines [10, 20] of file `F`, with no optional
constraints. -/
def supF : Suppression :=
  { id := "S1", file := "F", line_start := 10, line_end := 20
    finding_type := none, pattern := none, reason := "r"
    suppressed_by := "u", suppressed_at := 0
    content_hash := none, expires := none }

/-- A store holding only `supF`. -/
def storeF : Suppressions := { items := [supF] }

/-- C5: `is_suppressed` returns the first active suppression in stored order
whose file matches exactly, whose inclusive line range overlaps, whose
`finding_type` (when specified) matches, and whose `pattern` (when set)
occurs case-insensitively in the description — an absent optional field
imposes no constraint, and `none` results when no active suppression passes
all the checks.  A suppression over [10, 20] on file `F` matches incoming
findings at [15, 18], [5, 12] and [18, 25] on `F`, but neither [25, 30] on
`F` nor [15, 18] on a different file. -/
theorem claim_C5 :
    (∀ (md5hex : String → String) (fs : String → String → Option String)
        (now : Int) (s : Suppressions) (file : String) (ls le : Nat)
        (ft d : String) (root : Option String),
      Suppressions.is_suppressed md5hex fs now s file ls le ft d root
        = (s.active md5hex fs now root).find? (fun sup =>
            decide (sup.file = file) &&
            decide (ls ≤ sup.line_end ∧ le ≥ sup.line_start) &&
            (match sup.finding_type with
             | some stype => decide (stype = ft)
             | none => true) &&
            (match sup.pattern with
             | some pattern => strContains (strToLower d) (strToLower pattern)
             | none => true))) ∧
    Suppressions.is_suppressed hashId fsEmpty 0 storeF "F" 15 18 "logic" "desc" none
      = some supF ∧
    Suppressions.is_suppressed hashId fsEmpty 0 storeF "F" 5 12 "logic" "desc" none
      = some supF ∧
    Suppressions.is_suppressed hashId fsEmpty 0 storeF "F" 18 25 "logic" "desc" none
      = some supF ∧
    Suppressions.is_suppressed hashId fsEmpty 0 storeF "F" 25 30 "logic" "desc" none
      = none ∧
    Suppressions.is_suppressed hashId fsEmpty 0 storeF "G" 15 18 "logic" "desc" none
      = none := by
  refine ⟨fun md5hex fs now s file ls le ft d root => ?_, ?_, ?_, ?_, ?_, ?_⟩
  · exact isSuppressedScan_eq_find file ls le ft d (s.active md5hex fs now root)
  all_goals decide

/-- The retain predicate of `cleanup` coincides with the filter predicate of
`active` (the source duplicates the block verbatim). -/
theorem cleanup_pred_eq_active_pred :
    suppressionSurvivesCleanup = suppressionPassesActive :=
  rfl

/-- The source's early-return filter body of `active` agrees with the
claim-shaped positive conjunction: (a) not strictly past any explicit
expiry, and (b) any recorded content hash equals the currently computable
hash of the referenced line range (an uncomputable hash, or an absent
`repo_root`, skips the check). -/
theorem suppressionPassesActive_eq_claim (md5hex : String → String)
    (fs : String → String → Option String) (now : Int)
    (root : Option String) (sup : Suppression) :
    suppressionPassesActive md5hex fs now root sup
      = (sup.expires.all (fun e => decide (now ≤ e)) &&
         sup.content_hash.all (fun h =>
           root.all (fun rt =>
             (get_content_hash md5hex fs rt sup.file sup.line_start sup.line_end).all
               (fun cur => cur == h)))) := by
  unfold suppressionPassesActive
  cases hexp : sup.expires with
  | some e =>
    by_cases he : now > e
    · simp [he, Option.all_some, not_le.mpr he]
    · cases hch : sup.content_hash with
      | some h =>
        cases hr : root with
        | some rt =>
          cases hg : get_content_hash md5hex fs rt sup.file sup.line_start sup.line_end with
          | some cur => simp [he, not_lt.mp he, Option.all_some, Option.all_none, hg]
          | none => simp [he, not_lt.mp he, Option.all_some, Option.all_none, hg]
        | none => simp [he, not_lt.mp he, Option.all_some, Option.all_none]
      | none => simp [he, not_lt.mp he, Option.all_some, Option.all_none]
  | none =>
    cases hch : sup.content_hash with
    | some h =>
      cases hr : root with
      | some rt =>
        cases hg : get_content_hash md5hex fs rt sup.file sup.line_start sup.line_end with
        | some cur => simp [Option.all_some, Option.all_none, hg]
        | none => simp [Option.all_some, Option.all_none, hg]
      | none => simp [Option.all_some, Option.all_none]
    | none => simp [Option.all_some, Option.all_none]

/-- The 12-line fixture file (the hashed range 10-20 clamps to lines
10-12). -/
def origContent : String :=
  "a1\na2\na3\na4\na5\na6\na7\na8\na9\na10\na11\na12"

/-- The fixture file with bytes of line 11 — inside the hashed range —
mutated. -/
def mutContent : String :=
  "a1\na2\na3\na4\na5\na6\na7\na8\na9\na10\naXX\na12"

/-- File system holding the unmodified fixture as `F` under root `root`. -/
def fsOrig : String → String → Option String :=
  fun rt f => if rt = "root" ∧ f = "F" then some origContent else none

/-- File system holding the mutated fixture. -/
def fsMut : String → String → Option String :=
  fun rt f => if rt = "root" ∧ f = "F" then some mutContent else none

/-- A suppression anchored to the content hash of lines 10-20 of the
fixture. -/
def supH : Suppression :=
  { id := "S2", file := "F", line_start := 10, line_end := 20
    finding_type := none, pattern := none, reason := "r"
    suppressed_by := "u", suppressed_at := 0
    content_hash := some (hashId "a10\na11\na12"), expires := none }

/-- A store holding only `supH`. -/
def storeH : Suppressions := { items := [supH] }

/-- C6: with time and file contents fixed, `active` keeps exactly the
suppressions that are (a) not strictly past their expiry and (b) whose
recorded content hash, when checkable, equals the current hash of their
clamped 1-indexed line range (unreadable files and out-of-range starts skip
the check); `cleanup` removes from storage exactly the failing entries,
preserving the order of the rest.  Mutating a byte inside a hashed range
makes `active` exclude the suppression and `cleanup` delete it, while the
unmodified fixture leaves it active. -/
theorem claim_C6 :
    (∀ (md5hex : String → String) (fs : String → String → Option String)
        (now : Int) (s : Suppressions) (root : Option String),
      s.active md5hex fs now root
        = s.items.filter (fun sup =>
            sup.expires.all (fun e => decide (now ≤ e)) &&
            sup.content_hash.all (fun h =>
              root.all (fun rt =>
                (get_content_hash md5hex fs rt sup.file sup.line_start sup.line_end).all
                  (fun cur => cur == h))))) ∧
    (∀ (md5hex : String → String) (fs : String → String → Option String)
        (now : Int) (s : Suppressions) (root : Option String),
      (Suppressions.cleanup md5hex fs now s root).items
        = s.items.filter (fun sup =>
            sup.expires.all (fun e => decide (now ≤ e)) &&
            sup.content_hash.all (fun h =>
              root.all (fun rt =>
                (get_content_hash md5hex fs rt sup.file sup.line_start sup.line_end).all
                  (fun cur => cur == h))))) ∧
    storeH.active hashId fsOrig 0 (some "root") = [supH] ∧
    storeH.active hashId fsMut 0 (some "root") = [] ∧
    (Suppressions.cleanup hashId fsMut 0 storeH (some "root")).items = [] ∧
    (Suppressions.cleanup hashId fsOrig 0 storeH (some "root")).items = [supH] := by
  refine ⟨fun md5hex fs now s root => ?_, fun md5hex fs now s root => ?_, ?_, ?_, ?_, ?_⟩
  · exact List.filter_congr
      (fun sup _ => suppressionPassesActive_eq_claim md5hex fs now root sup)
  · exact List.filter_congr
      (fun sup _ => suppressionPassesActive_eq_claim md5hex fs now root sup)
  all_goals decide

/-- The rule loop picks the first rule, in configuration order, whose
condition matches. -/
theorem evaluateRulesGo_eq_find (parse : String → Option Rat) (ctx : RuleContext) :
    ∀ l : List AutoRule,
      evaluateRulesGo parse ctx l
        = (l.find? (fun rule => matches_condition parse rule.condition ctx)).map
            (fun rule => (rule.action, rule.reason))
  | [] => rfl
  | rule :: rest => by
    have ih := evaluateRulesGo_eq_find parse ctx rest
    rw [evaluateRulesGo, List.find?]
    cases h : matches_condition parse rule.condition ctx <;> simp [h, ih]

/-- Claim-shaped description of one step of `RulesEngine::apply` on a single
suggestion item: already-decided items are untouched; otherwise the first
matching rule (configuration order) supplies the decision, recorded with
`decided_by = "auto-rules"` and an `"[Auto] "`-prefixed reason. -/
def autoDecideSpecStep (parse : String → Option Rat) (rules : List AutoRule)
    (created_at now : Int) (item : SuggestionItem) : SuggestionItem :=
  if item.decision.isSome then item
  else
    match rules.find? (fun rule =>
        matches_condition parse rule.condition
          (RuleContext.from_suggestion item created_at now)) with
    | some rule =>
      { item with
          decision := some
            { suggestion_id := item.suggestion.id
              decision := actionToDecision rule.action
              reason := some ("[Auto] " ++ rule.reason)
              decided_by := "auto-rules"
              decided_at := now } }
    | none => item

/-- One apply-loop iteration realizes the claim-shaped step. -/
theorem applyItem_fst (parse : String → Option Rat) (e : RulesEngine)
    (created_at now : Int) (item : SuggestionItem) :
    (e.applyItem parse created_at now item).1
      = autoDecideSpecStep parse e.rules created_at now item := by
  unfold RulesEngine.applyItem autoDecideSpecStep RulesEngine.evaluate_rules
  rw [evaluateRulesGo_eq_find]
  cases h : item.decision.isSome <;>
    cases hf : e.rules.find? (fun rule =>
        matches_condition parse rule.condition
          (RuleContext.from_suggestion item created_at now)) <;>
      simp [h, hf]

/-- Applying the step to its own output changes nothing and decides
nothing. -/
theorem applyItem_idem (parse : String → Option Rat) (e : RulesEngine)
    (created_at now : Int) (item : SuggestionItem) :
    e.applyItem parse created_at now (e.applyItem parse created_at now item).1
      = ((e.applyItem parse created_at now item).1, 0) := by
  unfold RulesEngine.applyItem RulesEngine.evaluate_rules
  cases h : item.decision.isSome with
  | true => simp [h]
  | false =>
    simp only [h, Bool.false_eq_true, if_false]
    cases hf : evaluateRulesGo parse
        (RuleContext.from_suggestion item created_at now) e.rules with
    | some p => cases p with
      | mk action reason => simp [hf]
    | none => simp [hf, h]

/-- C8: `RulesEngine::apply` maps each suggestion through the claim-shaped
step — already-decided items are never replaced or cleared, and each
undecided item receives the decision of the first matching rule in
configuration order, recorded with `decided_by = "auto-rules"` and an
`"[Auto] "`-prefixed reason — it touches no other review field, and a
second application makes zero further decisions and leaves the review
unchanged. -/
theorem claim_C8 :
    (∀ (parse : String → Option Rat) (e : RulesEngine) (now : Int) (r : Review),
      ((e.apply parse now r).2).suggestions
        = r.suggestions.map (autoDecideSpecStep parse e.rules r.created_at now)) ∧
    (∀ (parse : String → Option Rat) (e : RulesEngine) (now : Int) (r : Review),
      ((e.apply parse now r).2).id = r.id ∧
      ((e.apply parse now r).2).status = r.status ∧
      ((e.apply parse now r).2).created_at = r.created_at) ∧
    (∀ (parse : String → Option Rat) (e : RulesEngine) (now : Int) (r : Review),
      e.apply parse now ((e.apply parse now r).2) = (0, (e.apply parse now r).2)) := by
  refine ⟨fun parse e now r => ?_, fun parse e now r => ⟨rfl, rfl, rfl⟩,
    fun parse e now r => ?_⟩
  · show (r.suggestions.map (e.applyItem parse r.created_at now)).map Prod.fst
        = r.suggestions.map (autoDecideSpecStep parse e.rules r.created_at now)
    rw [List.map_map]
    exact List.map_congr_left (fun item _ => applyItem_fst parse e r.created_at now item)
  · unfold RulesEngine.apply
    simp only [List.map_map]
    have h1 : ∀ item ∈ r.suggestions,
        (Prod.snd ∘ e.applyItem parse r.created_at now ∘ Prod.fst ∘
          e.applyItem parse r.created_at now) item = 0 := by
      intro item _
      simp [Function.comp, applyItem_idem parse e r.created_at now item]
    have h2 : ∀ item ∈ r.suggestions,
        (Prod.fst ∘ e.applyItem parse r.created_at now ∘ Prod.fst ∘
          e.applyItem parse r.created_at now) item
          = (Prod.fst ∘ e.applyItem parse r.created_at now) item := by
      intro item _
      simp [Function.comp, applyItem_idem parse e r.created_at now item]
    refine Prod.ext ?_ ?_
    · show (r.suggestions.map _).sum = 0
      refine List.sum_eq_zero ?_
      intro x hx
      rw [List.mem_map] at hx
      obtain ⟨item, hmem, hval⟩ := hx
      rw [← hval]
      exact h1 item hmem
    · show ({ r with suggestions := _ } : Review) = _
      congr 1
      exact List.map_congr_left h2

/-- C7: rule-condition evaluation is a total boolean function; an unknown
field renders as the empty string; a conjunct evaluating false prevents the
whole rule from matching; a numeric comparison evaluates true only when
both operands parse (so an unparseable operand makes the conjunct false);
and equality of an unknown field against a non-empty literal is false. -/
theorem claim_C7 :
    (∀ (ctx : RuleContext) (field : String),
      field ∉ ["severity", "type", "age_days", "file_path"] →
      get_field_value field ctx = "") ∧
    (∀ (parse : String → Option Rat) (ctx : RuleContext) (condition : String),
      matches_condition parse condition ctx = true →
      ∀ part ∈ rustSplit " AND " condition,
        evaluate_expression parse (rustTrim part) ctx = true) ∧
    (∀ (parse : String → Option Rat) (ctx : RuleContext) (expr : String),
      evaluate_expression parse expr ctx = true →
      strContains (rustTrim expr) "==" = true ∨
      (∃ f v tq fq,
        (rustSplit ">" (rustTrim expr) = [f, v] ∨
         rustSplit ">=" (rustTrim expr) = [f, v] ∨
         rustSplit "<" (rustTrim expr) = [f, v]) ∧
        parse (rustTrim v) = some tq ∧
        parse (get_field_value (rustTrim f) ctx) = some fq)) ∧
    (∀ (parse : String → Option Rat) (ctx : RuleContext) (expr f v : String),
      strContains (rustTrim expr) "==" = true →
      rustSplit "==" (rustTrim expr) = [f, v] →
      get_field_value (rustTrim f) ctx = "" →
      trimMatchesChar '"' (trimMatchesChar '\'' (rustTrim v)) ≠ "" →
      evaluate_expression parse expr ctx = false) ∧
    (∀ (parse : String → Option Rat) (ctx : RuleContext),
      evaluate_expression parse "unknown_field == \"x\"" ctx = false) ∧
    (∀ (parse : String → Option Rat) (ctx : RuleContext) (expr : String),
      evaluate_expression parse expr ctx = true ∨
      evaluate_expression parse expr ctx = false) := by
  refine ⟨fun ctx field hf => ?_, fun parse ctx condition h part hp => ?_,
    fun parse ctx expr h => ?_, fun parse ctx expr f v hc hsplit hfv htrim => ?_,
    fun parse ctx => ?_, fun parse ctx expr => ?_⟩
  · unfold get_field_value
    split <;> simp_all
  · rw [matches_condition, List.all_eq_true] at h
    exact h part hp
  · rw [evaluate_expression] at h
    by_cases hc : strContains (rustTrim expr) "==" = true
    · exact Or.inl hc
    · right
      rw [if_neg hc] at h
      have key : ∀ (parts : List String) (cmp : Rat → Rat → Bool),
          numericCompare parse ctx parts cmp = true →
          ∃ f v tq fq, parts = [f, v] ∧ parse (rustTrim v) = some tq ∧
            parse (get_field_value (rustTrim f) ctx) = some fq := by
        intro parts cmp hn
        match parts with
        | [] => simp [numericCompare] at hn
        | [f] => simp [numericCompare] at hn
        | f :: v :: x :: rest => simp [numericCompare] at hn
        | [f, v] =>
          have hred : numericCompare parse ctx [f, v] cmp
              = (match parse (rustTrim v) with
                 | none => false
                 | some threshold =>
                   match parse (get_field_value (rustTrim f) ctx) with
                   | none => false
                   | some field_value => cmp field_value threshold) := rfl
          rw [hred] at hn
          cases ht : parse (rustTrim v) with
          | none => rw [ht] at hn; simp at hn
          | some tq =>
            rw [ht] at hn
            cases hg : parse (get_field_value (rustTrim f) ctx) with
            | none => rw [hg] at hn; simp at hn
            | some fq => exact ⟨f, v, tq, fq, rfl, ht, hg⟩
      split_ifs at h with hgt hge hlt
      · obtain ⟨f, v, tq, fq, hp, h1, h2⟩ := key _ _ h
        exact ⟨f, v, tq, fq, Or.inl hp, h1, h2⟩
      · obtain ⟨f, v, tq, fq, hp, h1, h2⟩ := key _ _ h
        exact ⟨f, v, tq, fq, Or.inr (Or.inl hp), h1, h2⟩
      · obtain ⟨f, v, tq, fq, hp, h1, h2⟩ := key _ _ h
        exact ⟨f, v, tq, fq, Or.inr (Or.inr hp), h1, h2⟩
  · rw [evaluate_expression, if_pos hc, hsplit]
    simp only [beq_eq_false_iff_ne, ne_eq, hfv]
    exact fun hh => htrim hh.symm
  · rfl
  · cases evaluate_expression parse expr ctx
    · exact Or.inr rfl
    · exact Or.inl rfl

/-- The rule context of a low-severity style suggestion, for the C7
witness. -/
def ctx0 : RuleContext :=
  { severity := "low", suggestion_type := "style", age_days := 9
    file_path := "src/a.rs" }

/-- C7 witness: an unrecognized field renders empty, and a matching
single-conjunct condition evaluates true. -/
theorem claim_C7_witness :
    get_field_value "confidence" ctx0 = "" ∧
    evaluate_expression (fun _ => none) (rustTrim "severity == \"low\"") ctx0 = true :=
  ⟨claim_C7.1 ctx0 "confidence" (by decide),
   claim_C7.2.1 (fun _ => none) ctx0 "severity == \"low\"" (by decide)
     "severity == \"low\"" (by decide)⟩

/-- A low-severity style suggestion. -/
def sugLow : Suggestion :=
  { id := "S001", suggestion_type := SuggestionType.Style
    severity := Severity.Low
    location := { file := "src/a.rs", line_start := 1, line_end := 2 }
    description := "d", proposed_fix := none }

/-- An engine whose single rule dismisses low-severity suggestions. -/
def engineLow : RulesEngine :=
  { rules := [{ condition := "severity == \"low\"", action := AutoAction.AutoDismiss
                reason := "low severity" }] }

/-- A pending review with one undecided low-severity suggestion. -/
def reviewC2 : Review :=
  { id := 1, pr_number := some 1, repo := "r", branch := none
    commit_sha := "c", created_at := 0, status := ReviewStatus.Pending
    suggestions := [{ suggestion := sugLow, decision := none }] }

/-- A review context for PR 1. -/
def ctxPR : ReviewContext :=
  { pr_number := some 1, repo := "r", branch := none, commit_sha := "c"
    base_sha := none }

/-- C2 counterexample: the `status == decided ⟺ fully decided` invariant
fails on reachable reviews.  `RulesEngine::apply` deciding the last
undecided suggestion records the decision but leaves `status` pending, and
`Review::new` yields a suggestion-free review that is vacuously fully
decided yet pending. -/
theorem claim_C2_counterexample :
    ((engineLow.apply (fun _ => none) 0 reviewC2).2).is_fully_decided = true ∧
    ((engineLow.apply (fun _ => none) 0 reviewC2).2).status ≠ ReviewStatus.Decided ∧
    (Review.new 1 0 ctxPR).is_fully_decided = true ∧
    (Review.new 1 0 ctxPR).status ≠ ReviewStatus.Decided := by
  decide

/-- C2 (amended): `is_fully_decided()` holds iff every item carries a
decision; `RulesEngine::apply` never changes `status`; and the CLI
decide-and-save path promotes `status` to `decided` exactly when the
updated review is fully decided, otherwise keeping the loaded review's
status. -/
theorem claim_C2 :
    (∀ r : Review, r.is_fully_decided = true ↔
      ∀ item ∈ r.suggestions, item.decision.isSome = true) ∧
    (∀ (parse : String → Option Rat) (e : RulesEngine) (now : Int) (r : Review),
      ((e.apply parse now r).2).status = r.status) ∧
    (∀ (st : LedgerState) (repo : String) (pr : Nat) (sid : String)
        (acc rej : Bool) (reason : Option String) (user : String) (now : Int)
        (r' : Review) (st' : LedgerState),
      make_decision st repo pr sid acc rej reason user now = Except.ok (r', st') →
      (r'.is_fully_decided = true → r'.status = ReviewStatus.Decided) ∧
      (r'.is_fully_decided = false →
        ∃ r0, st.load_by_pr repo pr = some r0 ∧ r'.status = r0.status)) := by
  refine ⟨fun r => by simp [Review.is_fully_decided, List.all_eq_true],
    fun parse e now r => rfl,
    fun st repo pr sid acc rej reason user now r' st' h => ?_⟩
  unfold make_decision at h
  cases hl : st.load_by_pr repo pr with
  | none => rw [hl] at h; simp at h
  | some r0 =>
    rw [hl] at h
    dsimp only at h
    cases hd : (if acc then some HumanDecision.Accepted
        else if rej then some HumanDecision.Rejected else none) with
    | none => rw [hd] at h; simp at h
    | some decision =>
      rw [hd] at h
      dsimp only at h
      cases hs : setDecisionOnFirst sid
          { suggestion_id := sid, decision := decision, reason := reason
            decided_by := user, decided_at := now } r0.suggestions with
      | none => rw [hs] at h; simp at h
      | some suggestions =>
        rw [hs] at h
        dsimp only at h
        by_cases hfd : ({ r0 with suggestions := suggestions } : Review).is_fully_decided = true
        · rw [if_pos hfd] at h
          simp only [Except.ok.injEq, Prod.mk.injEq] at h
          obtain ⟨hr, _⟩ := h
          constructor
          · intro _
            rw [← hr]
          · intro hfalse
            rw [← hr] at hfalse
            have heq : ({ r0 with suggestions := suggestions, status := ReviewStatus.Decided } : Review).is_fully_decided = ({ r0 with suggestions := suggestions } : Review).is_fully_decided := rfl
            rw [heq, hfd] at hfalse
            simp at hfalse
        · rw [if_neg hfd] at h
          simp only [Except.ok.injEq, Prod.mk.injEq] at h
          obtain ⟨hr, _⟩ := h
          constructor
          · intro htrue
            rw [← hr] at htrue
            exact absurd htrue hfd
          · intro _
            exact ⟨r0, rfl, by rw [← hr]⟩

/-- The decided version of `reviewC2`'s shape reached through the CLI
decide path, for the C2 witness. -/
def reviewW1 : Review :=
  { id := 1, pr_number := some 1, repo := "r", branch := none
    commit_sha := "c", created_at := 0, status := ReviewStatus.Decided
    suggestions := [{ suggestion := sugLow
                      decision := some { suggestion_id := "S001"
                                         decision := HumanDecision.Accepted
                                         reason := none, decided_by := "u"
                                         decided_at := 5 } }] }

/-- C2 witness: accepting the only suggestion of a one-suggestion pending
review through `make_decision` produces a fully-decided review whose status
the theorem forces to `decided`. -/
theorem claim_C2_witness : reviewW1.status = ReviewStatus.Decided :=
  (claim_C2.2.2 (LedgerState.empty.save reviewC2) "r" 1 "S001" true false none
    "u" 5 reviewW1 ((LedgerState.empty.save reviewC2).save reviewW1)
    (by rfl)).1 (by decide)

/-! ## Ledger lemmas -/

/-- Left-biased option choice. -/
def orO {α : Type} : Option α → Option α → Option α
  | some a, _ => some a
  | none, b => b

/-- The most recently saved review carrying a given id in a save
sequence. -/
def lastSavedWithId (rs : List Review) (i : Nat) : Option Review :=
  rs.reverse.find? (fun r => r.id == i)

/-- The index entry `JsonLedger::save` writes for a review. -/
def indexEntryOf (r : Review) : ReviewIndexEntry :=
  { id := r.id, repo := r.repo, pr_number := r.pr_number
    commit_sha := r.commit_sha, status := r.status }

/-- Filtering away elements that cannot satisfy `p` anyway does not change
the first `p`-match. -/
theorem find?_filter_of_imp {α : Type} (p q : α → Bool)
    (h : ∀ a, p a = true → q a = true) :
    ∀ l : List α, (l.filter q).find? p = l.find? p
  | [] => rfl
  | a :: t => by
    have ih := find?_filter_of_imp p q h t
    rw [List.filter_cons]
    by_cases hq : q a = true
    · rw [if_pos hq, List.find?, List.find?]
      cases hp : p a <;> simp [ih]
    · have hp : p a = false := by
        cases hpa : p a
        · rfl
        · exact absurd (h a hpa) hq
      rw [if_neg hq, ih, List.find?, hp]

/-- Loading after a save: the saved review under its id, everything else
untouched. -/
theorem save_load (st : LedgerState) (r : Review) (i : Nat) :
    (st.save r).load i = if r.id = i then some r else st.load i := by
  by_cases h : r.id = i
  · simp [LedgerState.save, LedgerState.load, List.find?, h]
  · have himp : ∀ d : Nat × Review,
        (fun d : Nat × Review => decide (d.1 = i)) d = true →
        (fun d : Nat × Review => decide (d.1 ≠ r.id)) d = true := by
      intro d hd
      simp only [decide_eq_true_eq] at hd ⊢
      intro hc
      exact h (by rw [← hc]; exact hd)
    have hhead : (decide ((r.id, r).1 = i)) = false := by simp [h]
    simp only [LedgerState.save, LedgerState.load, List.find?, hhead, if_neg h]
    rw [find?_filter_of_imp _ _ himp]

/-- Loading from a state reached by a sequence of saves: the most recently
saved review with that id, else whatever the base state held. -/
theorem load_applySaves : ∀ (rs : List Review) (st : LedgerState) (i : Nat),
    (st.applySaves rs).load i = orO (lastSavedWithId rs i) (st.load i)
  | [], st, i => by simp [LedgerState.applySaves, lastSavedWithId, orO]
  | r :: rest, st, i => by
    have ih := load_applySaves rest (st.save r) i
    have hfold : (st.applySaves (r :: rest)) = ((st.save r).applySaves rest) := rfl
    rw [hfold, ih, save_load]
    have hl : lastSavedWithId (r :: rest) i
        = orO (lastSavedWithId rest i) (if r.id = i then some r else none) := by
      unfold lastSavedWithId
      rw [List.reverse_cons, List.find?_append]
      cases hfind : List.find? (fun r' => r'.id == i) rest.reverse with
      | some a => simp [orO, hfind]
      | none =>
        have e1 : (List.find? (fun r' => r'.id == i) [r])
            = if r.id = i then some r else none := by
          by_cases hri : r.id = i
          · have hb : (r.id == i) = true := by simpa using hri
            simp [List.find?, hb, hri]
          · have hb : (r.id == i) = false := by simpa using hri
            simp [List.find?, hb, hri]
        simp [hfind, e1, orO]
    rw [hl]
    cases lastSavedWithId rest i with
    | some a => rfl
    | none => cases h : decide (r.id = i) <;> simp_all [orO]

/-- The consistency invariant of the JSON ledger directory: every index
entry points at a stored document agreeing with it field by field, and
every stored document is keyed by its own id and indexed. -/
def LedgerInv (st : LedgerState) : Prop :=
  (∀ e ∈ st.index, ∃ r, st.load e.id = some r ∧ e = indexEntryOf r) ∧
  (∀ i r, st.load i = some r → r.id = i ∧ ∃ e ∈ st.index, e.id = i)

/-- The fresh ledger satisfies the invariant. -/
theorem ledgerInv_empty : LedgerInv LedgerState.empty := by
  constructor
  · intro e he
    simp [LedgerState.empty] at he
  · intro i r h
    simp [LedgerState.empty, LedgerState.load, List.find?] at h

/-- Rust `save` preserves the ledger invariant. -/
theorem ledgerInv_save (st : LedgerState) (r : Review) (h : LedgerInv st) :
    LedgerInv (st.save r) := by
  obtain ⟨h1, h2⟩ := h
  constructor
  · intro e he
    have hsplit : e ∈ st.index.filter (fun x => x.id ≠ r.id) ∨ e = indexEntryOf r := by
      simpa [LedgerState.save, List.mem_append, indexEntryOf] using he
    rcases hsplit with hmem | rfl
    · rw [List.mem_filter] at hmem
      obtain ⟨hmem, hne⟩ := hmem
      obtain ⟨r0, hload, hentry⟩ := h1 e hmem
      refine ⟨r0, ?_, hentry⟩
      rw [save_load, if_neg ?_]
      · exact hload
      · intro hc
        simp only [decide_eq_true_eq] at hne
        exact hne (by rw [hc])
    · exact ⟨r, by rw [save_load]; simp [indexEntryOf], rfl⟩
  · intro i r' hload
    rw [save_load] at hload
    by_cases hc : r.id = i
    · rw [if_pos hc] at hload
      injection hload with hload
      subst hload
      exact ⟨hc, indexEntryOf r, by simp [LedgerState.save, indexEntryOf], hc⟩
    · rw [if_neg hc] at hload
      obtain ⟨hid, e, hmem, heid⟩ := h2 i r' hload
      refine ⟨hid, e, ?_, heid⟩
      simp only [LedgerState.save, List.mem_append, List.mem_filter]
      left
      refine ⟨hmem, ?_⟩
      simp only [decide_eq_true_eq]
      intro hh
      exact hc (by rw [← hh, heid])

/-- Sequences of saves preserve the ledger invariant. -/
theorem ledgerInv_applySaves :
    ∀ (rs : List Review) (st : LedgerState), LedgerInv st → LedgerInv (st.applySaves rs)
  | [], _, h => h
  | r :: rest, st, h => ledgerInv_applySaves rest (st.save r) (ledgerInv_save st r h)

/-- Loading from the state built by a save sequence on an empty directory
yields exactly the most recently saved review with that id. -/
theorem load_stateOf (rs : List Review) (i : Nat) :
    (LedgerState.empty.applySaves rs).load i = lastSavedWithId rs i := by
  rw [load_applySaves]
  have : LedgerState.empty.load i = none := rfl
  rw [this]
  cases lastSavedWithId rs i <;> rfl

/-- First review of a saved pile, under key (repo = "r", pr = 5, commit =
"c"). -/
def reviewA : Review :=
  { id := 1, pr_number := some 5, repo := "r", branch := none
    commit_sha := "c", created_at := 0, status := ReviewStatus.Pending
    suggestions := [] }

/-- A second, distinct review saved later under the same lookup keys. -/
def reviewB : Review :=
  { id := 2, pr_number := some 5, repo := "r", branch := none
    commit_sha := "c", created_at := 10, status := ReviewStatus.Pending
    suggestions := [] }

/-- The ledger after saving `reviewA` then `reviewB`. -/
def stAB : LedgerState := (LedgerState.empty.save reviewA).save reviewB

/-- C1 counterexample: after saving two distinct reviews under the same
(repo, pr) and (repo, commit) keys, `load_by_pr` and `load_by_commit`
return the review of the **first** matching index entry — `reviewA` — even
though `reviewB`'s index entry was appended last. -/
theorem claim_C1_counterexample :
    stAB.load_by_pr "r" 5 = some reviewA ∧
    stAB.load_by_commit "r" "c" = some reviewA ∧
    (stAB.index.getLast?).map (fun e => e.id) = some reviewB.id ∧
    reviewA.id ≠ reviewB.id := by
  decide

/-- C1 (amended): in the document-store ledger, a review id always resolves
to its most recently saved document, but `load_by_pr`/`load_by_commit`
resolve a key through the **first** matching index entry in stored order
(earliest-positioned among distinct ids), not the last-appended one; the
lookups return `none` exactly when no review whose latest save matches the
key exists.  Hence when every save matching the key carries one review id
(the single-writer-per-key case), the lookups return the most-recently-saved
review. -/
theorem claim_C1 :
    (∀ (rs : List Review) (i : Nat),
      (LedgerState.empty.applySaves rs).load i = lastSavedWithId rs i) ∧
    (∀ (rs : List Review) (repo : String) (pr : Nat) (r : Review),
      (LedgerState.empty.applySaves rs).load_by_pr repo pr = some r →
      r.repo = repo ∧ r.pr_number = some pr ∧ lastSavedWithId rs r.id = some r) ∧
    (∀ (rs : List Review) (repo commit : String) (r : Review),
      (LedgerState.empty.applySaves rs).load_by_commit repo commit = some r →
      r.repo = repo ∧ r.commit_sha = commit ∧ lastSavedWithId rs r.id = some r) ∧
    (∀ (rs : List Review) (repo : String) (pr : Nat),
      (LedgerState.empty.applySaves rs).load_by_pr repo pr = none →
      ∀ r, lastSavedWithId rs r.id = some r →
        ¬(r.repo = repo ∧ r.pr_number = some pr)) ∧
    (∀ (rs : List Review) (repo commit : String),
      (LedgerState.empty.applySaves rs).load_by_commit repo commit = none →
      ∀ r, lastSavedWithId rs r.id = some r →
        ¬(r.repo = repo ∧ r.commit_sha = commit)) := by
  have hinv : ∀ rs : List Review, LedgerInv (LedgerState.empty.applySaves rs) :=
    fun rs => ledgerInv_applySaves rs LedgerState.empty ledgerInv_empty
  refine ⟨load_stateOf, ?_, ?_, ?_, ?_⟩
  · intro rs repo pr r h
    unfold LedgerState.load_by_pr at h
    cases hf : (LedgerState.empty.applySaves rs).index.find?
        (fun r => r.repo == repo && r.pr_number == some pr) with
    | none => simp [hf] at h
    | some e =>
      simp only [hf] at h
      have hpred := List.find?_some hf
      have hmem := List.mem_of_find?_eq_some hf
      obtain ⟨r0, hload0, hentry⟩ := (hinv rs).1 e hmem
      rw [hload0] at h
      injection h with h
      subst h
      simp only [Bool.and_eq_true, beq_iff_eq] at hpred
      obtain ⟨hrepo, hpr⟩ := hpred
      subst hentry
      refine ⟨hrepo, hpr, ?_⟩
      rw [← load_stateOf rs]
      exact hload0
  · intro rs repo commit r h
    unfold LedgerState.load_by_commit at h
    cases hf : (LedgerState.empty.applySaves rs).index.find?
        (fun r => r.repo == repo && r.commit_sha == commit) with
    | none => simp [hf] at h
    | some e =>
      simp only [hf] at h
      have hpred := List.find?_some hf
      have hmem := List.mem_of_find?_eq_some hf
      obtain ⟨r0, hload0, hentry⟩ := (hinv rs).1 e hmem
      rw [hload0] at h
      injection h with h
      subst h
      simp only [Bool.and_eq_true, beq_iff_eq] at hpred
      obtain ⟨hrepo, hcommit⟩ := hpred
      subst hentry
      refine ⟨hrepo, hcommit, ?_⟩
      rw [← load_stateOf rs]
      exact hload0
  · intro rs repo pr h r hlast ⟨hrepo, hpr⟩
    unfold LedgerState.load_by_pr at h
    cases hf : (LedgerState.empty.applySaves rs).index.find?
        (fun r => r.repo == repo && r.pr_number == some pr) with
    | some e =>
      simp only [hf] at h
      have hmem := List.mem_of_find?_eq_some hf
      obtain ⟨r0, hload0, _⟩ := (hinv rs).1 e hmem
      rw [hload0] at h
      simp at h
    | none =>
      have hall := List.find?_eq_none.mp hf
      have hload : (LedgerState.empty.applySaves rs).load r.id = some r := by
        rw [load_stateOf]; exact hlast
      obtain ⟨_, e, hmem, heid⟩ := (hinv rs).2 r.id r hload
      obtain ⟨r0, hload0, hentry⟩ := (hinv rs).1 e hmem
      rw [heid, hload] at hload0
      injection hload0 with hload0
      subst hload0
      exact absurd (by subst hentry; simp [indexEntryOf, hrepo, hpr]) (hall e hmem)
  · intro rs repo commit h r hlast ⟨hrepo, hcommit⟩
    unfold LedgerState.load_by_commit at h
    cases hf : (LedgerState.empty.applySaves rs).index.find?
        (fun r => r.repo == repo && r.commit_sha == commit) with
    | some e =>
      simp only [hf] at h
      have hmem := List.mem_of_find?_eq_some hf
      obtain ⟨r0, hload0, _⟩ := (hinv rs).1 e hmem
      rw [hload0] at h
      simp at h
    | none =>
      have hall := List.find?_eq_none.mp hf
      have hload : (LedgerState.empty.applySaves rs).load r.id = some r := by
        rw [load_stateOf]; exact hlast
      obtain ⟨_, e, hmem, heid⟩ := (hinv rs).2 r.id r hload
      obtain ⟨r0, hload0, hentry⟩ := (hinv rs).1 e hmem
      rw [heid, hload] at hload0
      injection hload0 with hload0
      subst hload0
      exact absurd (by subst hentry; simp [indexEntryOf, hrepo, hcommit]) (hall e hmem)

/-- C1 witness: a single saved review is found by its PR key and is the
most recently saved review of its id. -/
theorem claim_C1_witness :
    reviewA.repo = "r" ∧ reviewA.pr_number = some 5 ∧
    lastSavedWithId [reviewA] reviewA.id = some reviewA :=
  claim_C1.2.1 [reviewA] "r" 5 reviewA (by decide)

/-! ## Orchestrator claims -/

/-- The non-dedup pipeline review keeps the context's key fields and carries
the fresh id. -/
theorem pipelineReview_fields (freshId : Nat) (now : Int)
    (stub : List Suggestion) (ctx : ReviewContext) :
    (pipelineReview freshId now stub ctx).repo = ctx.repo ∧
    (pipelineReview freshId now stub ctx).pr_number = ctx.pr_number ∧
    (pipelineReview freshId now stub ctx).commit_sha = ctx.commit_sha ∧
    (pipelineReview freshId now stub ctx).id = freshId := by
  unfold pipelineReview Review.new
  split <;> exact ⟨rfl, rfl, rfl, rfl⟩

/-- A `find?` miss survives filtering. -/
theorem find?_filter_of_none {α : Type} (p q : α → Bool) {l : List α}
    (h : l.find? p = none) : (l.filter q).find? p = none := by
  rw [List.find?_eq_none] at h ⊢
  intro x hx
  exact h x (List.mem_of_mem_filter hx)

/-- First review of a PR, at commit `c1`. -/
def reviewA2 : Review :=
  { id := 1, pr_number := some 5, repo := "r", branch := none
    commit_sha := "c1", created_at := 0, status := ReviewStatus.Pending
    suggestions := [] }

/-- A later review of the same PR at commit `c2`, saved second. -/
def reviewB2 : Review :=
  { id := 2, pr_number := some 5, repo := "r", branch := none
    commit_sha := "c2", created_at := 10, status := ReviewStatus.Pending
    suggestions := [] }

/-- The ledger holding `reviewA2` then `reviewB2`. -/
def stAB2 : LedgerState := (LedgerState.empty.save reviewA2).save reviewB2

/-- The request context naming (repo `r`, PR 5, commit `c2`). -/
def ctxC3 : ReviewContext :=
  { pr_number := some 5, repo := "r", branch := none, commit_sha := "c2"
    base_sha := none }

/-- The request context naming (repo `r`, PR 5, commit `c1`). -/
def ctxC1x : ReviewContext :=
  { pr_number := some 5, repo := "r", branch := none, commit_sha := "c1"
    base_sha := none }

/-- C3 counterexample: the ledger contains `reviewB2`, which matches the
lookup key (repo `r`, PR 5) and has exactly the requested commit `c2`, yet
`Orchestrator::review` invokes the external reviewer and returns a brand-new
review — the PR lookup resolves to the earlier `reviewA2` entry, whose
commit differs. -/
theorem claim_C3_counterexample :
    stAB2.load 2 = some reviewB2 ∧
    reviewB2.repo = "r" ∧ reviewB2.pr_number = some 5 ∧
    reviewB2.commit_sha = "c2" ∧
    (Orchestrator.review 3 99 [sugLow] stAB2 ctxC3).2.2 = true ∧
    (Orchestrator.review 3 99 [sugLow] stAB2 ctxC3).1.id ≠ reviewB2.id := by
  decide

/-- C3 (amended): when the review found by the dedup lookup (the first
matching index entry: by PR when present, else by commit) carries the
requested commit, `Orchestrator::review` returns it unchanged with no save
and no reviewer invocation; and starting from a ledger with no index entry
for the PR key, two calls with identical (repo, pr, commit) invoke the
reviewer exactly once and return the same review (same id) both times. -/
theorem claim_C3 :
    (∀ (freshId : Nat) (now : Int) (stub : List Suggestion)
        (st : LedgerState) (ctx : ReviewContext) (ex : Review),
      lookupExisting st ctx = some ex →
      ex.commit_sha = ctx.commit_sha →
      Orchestrator.review freshId now stub st ctx = (ex, st, false)) ∧
    (∀ (f1 : Nat) (n1 : Int) (stub1 : List Suggestion)
        (f2 : Nat) (n2 : Int) (stub2 : List Suggestion)
        (st : LedgerState) (ctx : ReviewContext) (pr : Nat),
      ctx.pr_number = some pr →
      st.index.find? (fun r => r.repo == ctx.repo && r.pr_number == some pr) = none →
      (Orchestrator.review f1 n1 stub1 st ctx).2.2 = true ∧
      Orchestrator.review f2 n2 stub2 (Orchestrator.review f1 n1 stub1 st ctx).2.1 ctx
        = ((Orchestrator.review f1 n1 stub1 st ctx).1,
           (Orchestrator.review f1 n1 stub1 st ctx).2.1, false)) := by
  constructor
  · intro freshId now stub st ctx ex h hc
    simp [Orchestrator.review, h, hc]
  · intro f1 n1 stub1 f2 n2 stub2 st ctx pr hpr hf
    have hlook : lookupExisting st ctx = none := by
      simp only [lookupExisting, hpr, LedgerState.load_by_pr, hf]
    have hfirst : Orchestrator.review f1 n1 stub1 st ctx
        = (pipelineReview f1 n1 stub1 ctx,
           st.save (pipelineReview f1 n1 stub1 ctx), true) := by
      simp [Orchestrator.review, hlook]
    obtain ⟨hrepo, hprn, hsha, hid⟩ := pipelineReview_fields f1 n1 stub1 ctx
    have hload2 : (st.save (pipelineReview f1 n1 stub1 ctx)).load_by_pr ctx.repo pr
        = some (pipelineReview f1 n1 stub1 ctx) := by
      unfold LedgerState.load_by_pr
      have hidx : (st.save (pipelineReview f1 n1 stub1 ctx)).index
          = st.index.filter (fun x => x.id ≠ (pipelineReview f1 n1 stub1 ctx).id)
            ++ [indexEntryOf (pipelineReview f1 n1 stub1 ctx)] := rfl
      rw [hidx, List.find?_append, find?_filter_of_none _ _ hf]
      simp only [List.find?, indexEntryOf, hrepo, hprn, hpr, Option.or]
      simp [save_load]
    have hlook2 : lookupExisting (st.save (pipelineReview f1 n1 stub1 ctx)) ctx
        = some (pipelineReview f1 n1 stub1 ctx) := by
      unfold lookupExisting
      rw [hpr]
      exact hload2
    constructor
    · rw [hfirst]
    · rw [hfirst]
      simp [Orchestrator.review, hlook2, hsha]

set_option maxRecDepth 8000 in
/-- C3 witness: the dedup branch returns the looked-up review unchanged on a
concrete ledger, and the two-call scenario from an empty ledger invokes the
reviewer once. -/
theorem claim_C3_witness :
    Orchestrator.review 9 50 [] stAB2 ctxC1x = (reviewA2, stAB2, false) ∧
    ((Orchestrator.review 1 0 [sugLow] LedgerState.empty ctxC3).2.2 = true ∧
     Orchestrator.review 2 7 [] (Orchestrator.review 1 0 [sugLow] LedgerState.empty ctxC3).2.1 ctxC3
       = ((Orchestrator.review 1 0 [sugLow] LedgerState.empty ctxC3).1,
          (Orchestrator.review 1 0 [sugLow] LedgerState.empty ctxC3).2.1, false)) :=
  ⟨claim_C3.1 9 50 [] stAB2 ctxC1x reviewA2 (by decide) (by decide),
   claim_C3.2 1 0 [sugLow] 2 7 [] LedgerState.empty ctxC3 5 (by decide) (by decide)⟩

set_option maxRecDepth 10000 in
/-- C4 counterexample: with an active suppression whose directive is the
nonempty rendering of `to_prompt`, the reviewer invocation's input — the
two chat messages `CodexAdapter::review` builds from the diff and the
context — does not contain the directive anywhere: the orchestrator never
renders or forwards suppression state. -/
theorem claim_C4_counterexample :
    Suppressions.to_prompt hashId fsEmpty 0 storeF none ≠ "" ∧
    ∀ m ∈ codexRequestMessages "x" ctxPR,
      ¬ (Suppressions.to_prompt hashId fsEmpty 0 storeF none).data <:+: m.content.data := by
  refine ⟨by decide, ?_⟩
  intro m hm hinf
  have hmark : '[' ∈ (Suppressions.to_prompt hashId fsEmpty 0 storeF none).data := by
    decide
  have hmem : '[' ∈ m.content.data := hinf.subset hmark
  have hm' : m = { role := "system", content := build_system_prompt }
      ∨ m = { role := "user", content := build_user_prompt "x" ctxPR } := by
    simpa [codexRequestMessages] using hm
  rcases hm' with rfl | rfl
  · revert hmem
    decide
  · revert hmem
    decide

/-- C4 (amended): the reviewer is invoked exactly when the dedup lookup
misses or returns a review of another commit, and its invocation input is
the fixed system prompt plus the user prompt rendered from the diff and the
context alone; the `to_prompt` directive (nonempty exactly when suppressions
are active) is not part of that input (see the counterexample). -/
theorem claim_C4 :
    (∀ (freshId : Nat) (now : Int) (stub : List Suggestion)
        (st : LedgerState) (ctx : ReviewContext),
      ((Orchestrator.review freshId now stub st ctx).2.2 = true ↔
        (match lookupExisting st ctx with
         | some ex => ex.commit_sha ≠ ctx.commit_sha
         | none => True))) ∧
    (∀ (diff : String) (ctx : ReviewContext),
      codexRequestMessages diff ctx
        = [{ role := "system", content := build_system_prompt },
           { role := "user", content := build_user_prompt diff ctx }]) ∧
    (∀ (md5hex : String → String) (fs : String → String → Option String)
        (now : Int) (s : Suppressions) (root : Option String),
      (s.to_prompt md5hex fs now root = "" ↔ s.active md5hex fs now root = [])) := by
  refine ⟨fun freshId now stub st ctx => ?_, fun diff ctx => rfl,
    fun md5hex fs now s root => ?_⟩
  · cases h : lookupExisting st ctx with
    | none => simp [Orchestrator.review, h]
    | some ex =>
      by_cases hc : ex.commit_sha = ctx.commit_sha
      · simp [Orchestrator.review, h, hc]
      · simp [Orchestrator.review, h, hc]
  · constructor
    · intro heq
      cases hl : s.active md5hex fs now root with
      | nil => rfl
      | cons a t =>
        exfalso
        have hto : s.to_prompt md5hex fs now root
            = "\n\nPreviously reviewed and suppressed findings (DO NOT report these again):\n"
              ++ String.join ((a :: t).map (fun sup =>
                "- " ++ sup.file ++ " (lines " ++ toString sup.line_start ++ "-"
                  ++ toString sup.line_end ++ "): "
                  ++ (match sup.pattern with
                      | some p => p
                      | none => "any issue")
                  ++ " [Reason: " ++ sup.reason ++ "]\n")) := by
          unfold Suppressions.to_prompt
          rw [hl]
          rfl
        rw [hto] at heq
        have hlen := congrArg String.length heq
        rw [String.length_append] at hlen
        have h0 : String.length "" = 0 := rfl
        rw [h0] at hlen
        have hpos : 0 < String.length
            "\n\nPreviously reviewed and suppressed findings (DO NOT report these again):\n" := by
          decide
        omega
    · intro hl
      simp [Suppressions.to_prompt, hl]

end LGTM
